import Mathlib

/-!
Verification development for the Bundestag plenary-protocol extraction service.

The Python source consists of a family of XML extractors over one parsed
document (`server_resources.py`) plus a module-level protocol cache and a
keyword search over extracted speeches (`server.py`).  The XML tree produced by
`xml.etree.ElementTree.fromstring` is modelled by `XmlNode`; ElementTree path
queries used by the source (`find`, `findall` with `./tag`, `.//tag` and
attribute predicates) are modelled by the helper functions below, all operating
in document (pre-)order.  Python dictionaries produced by the various `to_dict`
methods are modelled as association lists over a JSON-like value type `Val`;
`None` values (as produced by `Element.get` for an absent attribute) are
`Val.vnull`.  A byte payload that fails XML parsing is modelled by `none :
Option XmlNode`; parsing success yields `some root`.
-/

/-- Model of an `xml.etree.ElementTree.Element`: tag name, attribute list,
optional text (the text before the first child) and the child elements. -/
inductive XmlNode where
| mk (tag : String) (attrs : List (String × String)) (text : Option String)
    (children : List XmlNode)

/-- Tag name of an element. -/
def XmlNode.tag : XmlNode → String
| .mk t _ _ _ => t

/-- Attribute list of an element. -/
def XmlNode.attrs : XmlNode → List (String × String)
| .mk _ a _ _ => a

/-- Optional text of an element (`Element.text`). -/
def XmlNode.text : XmlNode → Option String
| .mk _ _ tx _ => tx

/-- Child elements of an element. -/
def XmlNode.children : XmlNode → List XmlNode
| .mk _ _ _ cs => cs

/-- Text of an element with `""` default. -/
def XmlNode.textD (n : XmlNode) : String := n.text.getD ""

/-- Model of `Element.get(key)`: the value of an attribute, or `none` when the
attribute is absent. -/
def XmlNode.getAttr (n : XmlNode) (k : String) : Option String :=
  (n.attrs.find? (fun kv => kv.1 == k)).map (fun kv => kv.2)

/-- Python truthiness of `Element.text`: true iff the text exists and is
non-empty (`if elem.text:`). -/
def XmlNode.textTruthy (n : XmlNode) : Bool :=
  match n.text with
  | some s => !(s == "")
  | none => false

mutual

/-- All proper descendants of an element in document (pre-)order; this is the
node set traversed by an ElementTree `.//` path query. -/
def XmlNode.descendants : XmlNode → List XmlNode
| .mk _ _ _ cs => descList cs

/-- Descendant list of a forest, in document order. -/
def descList : List XmlNode → List XmlNode
| [] => []
| c :: cs => c :: (XmlNode.descendants c ++ descList cs)

end

/-- Model of `root.findall(".//t")`: all descendants with the given tag, in
document order. -/
def findallDesc (n : XmlNode) (t : String) : List XmlNode :=
  n.descendants.filter (fun m => m.tag == t)

/-- Model of `root.find(".//t")`: the first descendant with the given tag. -/
def findDesc (n : XmlNode) (t : String) : Option XmlNode :=
  n.descendants.find? (fun m => m.tag == t)

/-- Model of `elem.find("./t")`: the first child with the given tag. -/
def findChild (n : XmlNode) (t : String) : Option XmlNode :=
  n.children.find? (fun m => m.tag == t)

/-- Model of `elem.find("./t1/t2")`: children tagged `t1`, then their children
tagged `t2`, flattened in document order, first hit. -/
def findChildPath2 (n : XmlNode) (t1 t2 : String) : Option XmlNode :=
  (((n.children.filter (fun m => m.tag == t1)).map
      (fun m => m.children.filter (fun c => c.tag == t2))).flatten).head?

/-- JSON-like value type for the dictionaries built by the `to_dict` methods.
`vnull` models Python `None`. -/
inductive Val where
| vnull
| vstr (s : String)
| vlist (xs : List Val)
| vdict (kvs : List (String × Val))

/-- Conversion of an optional attribute value to a dictionary value: absent
attributes become `None` (`vnull`). -/
def Val.ofOpt : Option String → Val
| none => .vnull
| some s => .vstr s

/-- Lookup of a key in an association-list dictionary (first binding wins, as
in a Python dict, which holds each key once). -/
def dlookup : List (String × Val) → String → Option Val
| [], _ => none
| (k0, v) :: rest, k => if k0 = k then some v else dlookup rest k

/-- Model of `data[k] = v` on a Python dict: replace the binding in place when
the key exists, otherwise append it (insertion order is preserved). -/
def setKey : List (String × Val) → String → Val → List (String × Val)
| [], k, v => [(k, v)]
| (k0, v0) :: rest, k, v =>
  if k0 = k then (k0, v) :: rest else (k0, v0) :: setKey rest k v

/-- Model of `data.update(us)` on a Python dict: apply `data[k] = v` for each
pair of `us` in order. -/
def dictUpdate (d : List (String × Val)) (us : List (String × Val)) :
    List (String × Val) :=
  us.foldl (fun acc kv => setKey acc kv.1 kv.2) d

/-- Model of `data.get(k, dflt)`. -/
def getD (d : List (String × Val)) (k : String) (dflt : Val) : Val :=
  (dlookup d k).getD dflt

/-- Metadata dictionary built by `BundestagResource._parse_metadata` together
with `BundestagResource.to_dict`: the six root-level session attributes, each
`Element.get` result stored as-is (so an absent attribute is `None`). -/
def baseDict (root : XmlNode) : List (String × Val) :=
  [("wahlperiode", Val.ofOpt (root.getAttr "wahlperiode")),
   ("sitzung_nr", Val.ofOpt (root.getAttr "sitzung-nr")),
   ("sitzung_datum", Val.ofOpt (root.getAttr "sitzung-datum")),
   ("sitzung_ort", Val.ofOpt (root.getAttr "sitzung-ort")),
   ("sitzung_start", Val.ofOpt (root.getAttr "sitzung-start-uhrzeit")),
   ("sitzung_ende", Val.ofOpt (root.getAttr "sitzung-ende-uhrzeit"))]

/-- Dictionary of the `SessionMetadata` resource: the base metadata extended
(`dict.update`) with four further root-level attributes. -/
def sessionMetadataDict (root : XmlNode) : List (String × Val) :=
  dictUpdate (baseDict root)
    [("herausgeber", Val.ofOpt (root.getAttr "herausgeber")),
     ("issn", Val.ofOpt (root.getAttr "issn")),
     ("sitzung_naechste_datum", Val.ofOpt (root.getAttr "sitzung-naechste-datum")),
     ("start_seitennr", Val.ofOpt (root.getAttr "start-seitennr"))]

/-- Speaker record built by `SpeakerList._extract_speakers` and (for the
embedded speaker of a speech) by `Speech._extract_speeches`. -/
structure SpeakerInfo where
  id : Option String
  vorname : String
  nachname : String
  titel : String
  fraktion : String
  rolle : String
deriving DecidableEq

/-- Model of the field pattern `x.text if x is not None and x.text else ""`
used for every name sub-field of a speaker record. -/
def fieldText : Option XmlNode → String
| some e =>
  match e.text with
  | some s => if s = "" then "" else s
  | none => ""
| none => ""

/-- Speaker record from a `name` element: the `vorname`, `nachname`, `titel`,
`fraktion` children and the `rolle/rolle_lang` path, each via `fieldText`; the
id is the enclosing speaker element's `id` attribute. -/
def mkSpeakerInfo (rid : Option String) (nameElem : XmlNode) : SpeakerInfo :=
  { id := rid
  , vorname := fieldText (findChild nameElem "vorname")
  , nachname := fieldText (findChild nameElem "nachname")
  , titel := fieldText (findChild nameElem "titel")
  , fraktion := fieldText (findChild nameElem "fraktion")
  , rolle := fieldText (findChildPath2 nameElem "rolle" "rolle_lang") }

/-- Loop body of `SpeakerList._extract_speakers`: for each `redner` node, skip
it when its id already occurs in the accumulated list (duplicate check first),
then skip it when it has no `./name` child, otherwise append its record. -/
def speakerLoop : List XmlNode → List SpeakerInfo → List SpeakerInfo
| [], acc => acc
| r :: rest, acc =>
  if acc.any (fun s => s.id == r.getAttr "id") then
    speakerLoop rest acc
  else
    match findChild r "name" with
    | none => speakerLoop rest acc
    | some nameElem => speakerLoop rest (acc ++ [mkSpeakerInfo (r.getAttr "id") nameElem])

/-- Model of `SpeakerList._extract_speakers`: scan all `.//redner` nodes. -/
def extractSpeakers (root : XmlNode) : List SpeakerInfo :=
  speakerLoop (findallDesc root "redner") []

/-- Speech record built by `Speech._extract_speeches`: id, embedded speaker
record (`none` models the empty dict `{}`), newline-joined content and the
comment list. -/
structure SpeechRec where
  id : Option String
  redner : Option SpeakerInfo
  inhalt : String
  kommentare : List String
deriving DecidableEq

/-- Model of `rede.find("./p[@klasse='redner']/redner")`: the first `redner`
child of a child paragraph classed `redner`, in document order. -/
def findSpeechRednerElem (rede : XmlNode) : Option XmlNode :=
  (((rede.children.filter
        (fun p => p.tag == "p" && p.getAttr "klasse" == some "redner")).map
      (fun p => p.children.filter (fun c => c.tag == "redner"))).flatten).head?

/-- Embedded speaker record of a speech: empty (`none`) when the speaker
element or its `name` child is missing, per `Speech._extract_speeches`. -/
def speechRedner (rede : XmlNode) : Option SpeakerInfo :=
  match findSpeechRednerElem rede with
  | none => none
  | some rel =>
    match findChild rel "name" with
    | none => none
    | some nameElem => some (mkSpeakerInfo (rel.getAttr "id") nameElem)

/-- Content paragraphs of a speech: every `.//p` descendant whose `klasse`
attribute is not `"redner"` and whose text is truthy, in document order
(`Speech._extract_speeches`). -/
def speechContribs (rede : XmlNode) : List XmlNode :=
  (findallDesc rede "p").filter
    (fun p => !(p.getAttr "klasse" == some "redner") && p.textTruthy)

/-- Paragraph used to identify the speaker of a speech: the child paragraph
classed `redner` that contains the `redner` element found by
`findSpeechRednerElem`, i.e. the first such paragraph having a `redner`
child. -/
def identParagraph (rede : XmlNode) : Option XmlNode :=
  ((rede.children.filter
      (fun p => p.tag == "p" && p.getAttr "klasse" == some "redner"
        && p.children.any (fun c => c.tag == "redner"))).head?)

/-- One speech record from a `rede` node (`Speech._extract_speeches` body). -/
def buildSpeech (rede : XmlNode) : SpeechRec :=
  { id := rede.getAttr "id"
  , redner := speechRedner rede
  , inhalt := String.intercalate "\n" ((speechContribs rede).map (fun p => p.textD.trim))
  , kommentare := ((findallDesc rede "kommentar").filter (fun k => k.textTruthy)).map
      (fun k => k.textD.trim) }

/-- Python truthiness of the optional `specific_id` argument: `None` and the
empty string are both falsy (`if specific_id and ...`). -/
def specTruthy : Option String → Bool
| none => false
| some s => !(s == "")

/-- Loop of `Speech._extract_speeches`: with a truthy requested id, skip every
`rede` whose id differs and stop right after the first match; otherwise
collect every speech. -/
def speechLoop (sid : Option String) : List XmlNode → List SpeechRec
| [] => []
| rede :: rest =>
  if specTruthy sid && !(rede.getAttr "id" == sid) then
    speechLoop sid rest
  else
    if specTruthy sid && rede.getAttr "id" == sid then [buildSpeech rede]
    else buildSpeech rede :: speechLoop sid rest

/-- Model of `Speech._extract_speeches`: scan all `.//rede` nodes. -/
def extractSpeeches (root : XmlNode) (sid : Option String) : List SpeechRec :=
  speechLoop sid (findallDesc root "rede")

/-- Agenda item record of `AgendaItem._extract_agenda_items`. -/
structure AgendaRec where
  id : Option String
  titel : String
  beschreibung : String
deriving DecidableEq

/-- One agenda item from a `tagesordnungspunkt` node: the title is the first
descendant paragraph classed `T_fett`; the description collects every
descendant paragraph with truthy text other than the title element itself
(object identity in the source, modelled by the position in the document-order
paragraph list). -/
def mkAgendaItem (top : XmlNode) : AgendaRec :=
  let ps := findallDesc top "p"
  let tIdx := ps.findIdx? (fun p => p.getAttr "klasse" == some "T_fett")
  let titel :=
    match tIdx with
    | some i =>
      match ps.get? i with
      | some pe => if pe.textTruthy then pe.textD.trim else ""
      | none => ""
    | none => ""
  let description :=
    (ps.enum.filter (fun ip => ip.2.textTruthy && !(some ip.1 == tIdx))).map
      (fun ip => ip.2.textD.trim)
  { id := top.getAttr "top-id"
  , titel := titel
  , beschreibung := if description.isEmpty then "" else String.intercalate "\n" description }

/-- Model of `AgendaItem._extract_agenda_items`. -/
def extractAgendaItems (root : XmlNode) : List AgendaRec :=
  (findallDesc root "tagesordnungspunkt").map mkAgendaItem

/-- Attachment record of `AttachmentList._extract_attachments`. -/
structure AttachmentRec where
  titel : String
  eintraege : List String
deriving DecidableEq

/-- Model of `AttachmentList._extract_attachments`: keep every `ivz-block`
whose `ivz-block-titel` child has text starting with `"Anlage"`, collecting
the truthy `ivz-eintrag-inhalt` texts of its `ivz-eintrag` children. -/
def extractAttachments (root : XmlNode) : List AttachmentRec :=
  (findallDesc root "ivz-block").filterMap (fun block =>
    match findChild block "ivz-block-titel" with
    | none => none
    | some te =>
      match te.text with
      | none => none
      | some s =>
        if !(s.startsWith "Anlage") then none
        else some
          { titel := s.trim
          , eintraege :=
              (block.children.filter (fun e => e.tag == "ivz-eintrag")).filterMap
                (fun e =>
                  match findChild e "ivz-eintrag-inhalt" with
                  | some ie => if ie.textTruthy then some (ie.textD.trim) else none
                  | none => none) })

/-- Model of `TableOfContents._extract_page_reference`: concatenation of the
trimmed `seite` and `seitenbereich` sub-values of the first descendant `a`. -/
def pageRef (eintrag : XmlNode) : String :=
  match findDesc eintrag "a" with
  | none => ""
  | some a =>
    let p1 :=
      match findChild a "seite" with
      | some se => if se.textTruthy then se.textD.trim else ""
      | none => ""
    let p2 :=
      match findChild a "seitenbereich" with
      | some sb => if sb.textTruthy then sb.textD.trim else ""
      | none => ""
    p1 ++ p2

/-- One table-of-contents entry dictionary, produced when the entry has a
truthy `ivz-eintrag-inhalt` child. -/
def tocEntryVal (eintrag : XmlNode) : Option Val :=
  match findChild eintrag "ivz-eintrag-inhalt" with
  | some ie =>
    if ie.textTruthy then
      some (Val.vdict [("inhalt", Val.vstr (ie.textD.trim)),
                       ("seite", Val.vstr (pageRef eintrag))])
    else none
  | none => none

/-- Model of `TableOfContents._extract_toc`: an empty title/entry dictionary
when the `inhaltsverzeichnis` node is absent, otherwise title, flat entries
and blocks (the `bloecke` key is only present in the latter case, as in the
source). -/
def tocObj (root : XmlNode) : List (String × Val) :=
  match findDesc root "inhaltsverzeichnis" with
  | none => [("titel", Val.vstr ""), ("eintraege", Val.vlist [])]
  | some ivz =>
    let titel :=
      match findChild ivz "ivz-titel" with
      | some te => if te.textTruthy then te.textD.trim else ""
      | none => ""
    let eintraege :=
      (ivz.children.filter (fun e => e.tag == "ivz-eintrag")).filterMap tocEntryVal
    let bloecke :=
      (ivz.children.filter (fun b => b.tag == "ivz-block")).map (fun block =>
        let btitel :=
          match findChild block "ivz-block-titel" with
          | some te => if te.textTruthy then te.textD.trim else ""
          | none => ""
        Val.vdict [("titel", Val.vstr btitel),
                   ("eintraege", Val.vlist
                     ((block.children.filter (fun e => e.tag == "ivz-eintrag")).filterMap
                       tocEntryVal))])
    [("titel", Val.vstr titel), ("eintraege", Val.vlist eintraege),
     ("bloecke", Val.vlist bloecke)]

/-- Dictionary values of the compound records. -/
def speakerVal (s : SpeakerInfo) : Val :=
  .vdict [("id", Val.ofOpt s.id), ("vorname", Val.vstr s.vorname),
          ("nachname", Val.vstr s.nachname), ("titel", Val.vstr s.titel),
          ("fraktion", Val.vstr s.fraktion), ("rolle", Val.vstr s.rolle)]

/-- Dictionary value of a speech record; an absent speaker is the empty
dict. -/
def speechVal (sp : SpeechRec) : Val :=
  .vdict [("id", Val.ofOpt sp.id),
          ("redner", match sp.redner with
                     | none => Val.vdict []
                     | some si => speakerVal si),
          ("inhalt", Val.vstr sp.inhalt),
          ("kommentare", Val.vlist (sp.kommentare.map Val.vstr))]

/-- Dictionary value of an agenda item. -/
def agendaItemVal (a : AgendaRec) : Val :=
  .vdict [("id", Val.ofOpt a.id), ("titel", Val.vstr a.titel),
          ("beschreibung", Val.vstr a.beschreibung)]

/-- Dictionary value of an attachment. -/
def attachmentVal (a : AttachmentRec) : Val :=
  .vdict [("titel", Val.vstr a.titel),
          ("eintraege", Val.vlist (a.eintraege.map Val.vstr))]

/-- Dictionary of the `TableOfContents` resource (`to_dict`): base metadata
updated with the table-of-contents object. -/
def tocDict (root : XmlNode) : List (String × Val) :=
  dictUpdate (baseDict root) (tocObj root)

/-- Dictionary of the `AgendaItem` resource. -/
def agendaDict (root : XmlNode) : List (String × Val) :=
  setKey (baseDict root) "tagesordnungspunkte"
    (Val.vlist ((extractAgendaItems root).map agendaItemVal))

/-- Dictionary of the `SpeakerList` resource. -/
def speakersDict (root : XmlNode) : List (String × Val) :=
  setKey (baseDict root) "redner"
    (Val.vlist ((extractSpeakers root).map speakerVal))

/-- Dictionary of the `Speech` resource (`Speech.to_dict`): a single object
under the `rede` key when exactly one speech was extracted, otherwise the
sequence under `reden`. -/
def speechDict (root : XmlNode) (sid : Option String) : List (String × Val) :=
  match extractSpeeches root sid with
  | [sp] => setKey (baseDict root) "rede" (speechVal sp)
  | sps => setKey (baseDict root) "reden" (Val.vlist (sps.map speechVal))

/-- Dictionary of the `AttachmentList` resource. -/
def attachmentsDict (root : XmlNode) : List (String × Val) :=
  setKey (baseDict root) "anlagen"
    (Val.vlist ((extractAttachments root).map attachmentVal))

/-- Dictionary of the `FullProtocol` resource (`FullProtocol.to_dict`): base
metadata, then the session-metadata keys not already present, then the
table-of-contents object, agenda items, speakers and attachments, each under
its own key. -/
def fullProtocolDict (root : XmlNode) : List (String × Val) :=
  let data0 := baseDict root
  let metadata := sessionMetadataDict root
  let data1 := dictUpdate data0 (metadata.filter (fun kv => (dlookup data0 kv.1).isNone))
  let toc := tocDict root
  let data2 := setKey data1 "inhaltsverzeichnis"
    (Val.vdict [("titel", getD toc "titel" (Val.vstr "")),
                ("eintraege", getD toc "eintraege" (Val.vlist [])),
                ("bloecke", getD toc "bloecke" (Val.vlist []))])
  let agenda := agendaDict root
  let data3 := setKey data2 "tagesordnungspunkte" (getD agenda "tagesordnungspunkte" (Val.vlist []))
  let speakers := speakersDict root
  let data4 := setKey data3 "redner" (getD speakers "redner" (Val.vlist []))
  let attachments := attachmentsDict root
  setKey data4 "anlagen" (getD attachments "anlagen" (Val.vlist []))

/-- Error taxonomy of the extraction layer: a payload that does not parse as
XML (`ET.ParseError` in `BundestagResource.__init__`) and an unknown resource
tag (`ValueError` in `create_resource`). -/
inductive ResError where
| malformedDocument
| unsupportedResourceKind
deriving DecidableEq

/-- The closed tag set of the `ResourceType` enumeration, in declaration
order. -/
def resourceTags : List String :=
  ["metadata", "agendaitem", "speakerlist", "speech", "attachmentlist",
   "toc", "fullprotocol"]

/-- Constructor step shared by every branch of the factory: the byte payload
either failed XML parsing (error, no partial output) or yields a parsed root
from which the resource dictionary is built. -/
def parseWith (parsed : Option XmlNode) (f : XmlNode → List (String × Val)) :
    Except ResError (List (String × Val)) :=
  match parsed with
  | none => .error .malformedDocument
  | some root => .ok (f root)

/-- Model of `create_resource`: dispatch over the resource-type tags in source
order, with an `UnsupportedResourceKind` failure for any other tag. -/
def createResource (tag : String) (parsed : Option XmlNode)
    (speechId : Option String) : Except ResError (List (String × Val)) :=
  if tag = "metadata" then parseWith parsed sessionMetadataDict
  else if tag = "agendaitem" then parseWith parsed agendaDict
  else if tag = "speakerlist" then parseWith parsed speakersDict
  else if tag = "speech" then parseWith parsed (fun r => speechDict r speechId)
  else if tag = "attachmentlist" then parseWith parsed attachmentsDict
  else if tag = "toc" then parseWith parsed tocDict
  else if tag = "fullprotocol" then parseWith parsed fullProtocolDict
  else .error .unsupportedResourceKind

/-- Raw byte payload of the remote document. -/
abbrev Payload := List Nat

/-- Python truthiness of the `cached_protocol` module variable: `None` and an
empty byte string are both falsy (`if not cached_protocol:`). -/
def truthyPayload : Option Payload → Bool
| none => false
| some bs => !bs.isEmpty

/-- Observable outcome of one call of `get_last_bundestagsplenarprotokoll`:
the cache state afterwards, the value returned to the caller, and whether the
remote fetch was performed. -/
structure CacheCallResult where
  state : Option Payload
  ret : Option Payload
  fetched : Bool
deriving DecidableEq

/-- Model of `get_last_bundestagsplenarprotokoll`: when the cache is truthy it
is returned unchanged without fetching; otherwise the remote fetch runs
(`query_api` returns `none` on any failure) and its result becomes both the
new cache state and the returned value. -/
def cacheCall (st : Option Payload) (fetchResult : Option Payload) : CacheCallResult :=
  if truthyPayload st then { state := st, ret := st, fetched := false }
  else { state := fetchResult, ret := fetchResult, fetched := true }

/-- Sequence of cache calls: each call consumes the next would-be fetch result
from the environment; the pair returned is the final state and the number of
remote fetches performed. -/
def runCalls : Option Payload → List (Option Payload) → Option Payload × Nat
| st, [] => (st, 0)
| st, f :: fs =>
  let r := cacheCall st f
  let rest := runCalls r.state fs
  (rest.1, (if r.fetched then 1 else 0) + rest.2)

/-- Model of Python `str.lower()`: the character list of the string with each
character lower-cased. -/
def lowerStr (s : String) : List Char := s.data.map Char.toLower

/-- Model of the Python substring test `needle in hay` on strings, working on
the character list. -/
def containsSub (needle : List Char) : List Char → Bool
| [] => needle.isEmpty
| c :: rest => needle.isPrefixOf (c :: rest) || containsSub needle rest

/-- Model of `re.finditer(re.escape(needle), hay)` for a literal needle:
left-to-right, non-overlapping matches, each reported as its start and end
index; an empty needle matches at every position (zero-width matches, the
scan advancing by one), as in Python. -/
def occAux (needle : List Char) : List Char → Nat → List (Nat × Nat)
| [], i => if needle.isEmpty then [(i, i)] else []
| c :: rest, i =>
  if h : needle.isEmpty then
    (i, i) :: occAux needle rest (i + 1)
  else
    if needle.isPrefixOf (c :: rest) then
      (i, i + needle.length) :: occAux needle ((c :: rest).drop needle.length)
        (i + needle.length)
    else
      occAux needle rest (i + 1)
termination_by hay _ => hay.length
decreasing_by
  all_goals simp only [List.length_drop, List.length_cons]
  · omega
  · have hlen : 0 < needle.length := by
      cases needle with
      | nil => simp at h
      | cons a as => simp
    omega

/-- Search result record of `plenarprotokoll_search`: speech id, embedded
speaker record, the context-window strings (the `matches` key of the source
dictionary) and their count. -/
structure SearchResult where
  id : Option String
  redner : Option SpeakerInfo
  matchStrings : List String
  match_count : Nat
deriving DecidableEq

/-- One search result for a speech already known to contain the keyword: one
context string per match, sliced 100 characters around the match and clamped
to the content bounds, wrapped in ellipses. -/
def mkSearchResult (keyword : String) (sp : SpeechRec) : SearchResult :=
  let kw := lowerStr keyword
  let content := lowerStr sp.inhalt
  let ms := (occAux kw content 0).map (fun se =>
    let st := se.1 - 100
    let en := min content.length (se.2 + 100)
    "..." ++ String.mk ((content.drop st).take (en - st)) ++ "...")
  { id := sp.id, redner := sp.redner, matchStrings := ms, match_count := ms.length }

/-- Model of the search loop of `plenarprotokoll_search`: case-fold keyword
and content, keep exactly the speeches whose content contains the keyword,
and build the result record for each. -/
def searchSpeeches (keyword : String) (speeches : List SpeechRec) : List SearchResult :=
  speeches.filterMap (fun sp =>
    if containsSub (lowerStr keyword) (lowerStr sp.inhalt) then
      some (mkSearchResult keyword sp)
    else none)

/-- Record of the first speaker node in the list that carries the given id and
has a `./name` child; used to characterise which node a retained SpeakerList
entry is built from. -/
def firstEligible (nodes : List XmlNode) (rid : Option String) : Option SpeakerInfo :=
  (nodes.find? (fun r => r.getAttr "id" == rid && (findChild r "name").isSome)).bind
    (fun r => (findChild r "name").map (mkSpeakerInfo (r.getAttr "id")))

/-- Keys of the base metadata dictionary shared by every resource kind. -/
def baseKeys : List String :=
  ["wahlperiode", "sitzung_nr", "sitzung_datum", "sitzung_ort",
   "sitzung_start", "sitzung_ende"]

/-- Keys of the full `SessionMetadata` dictionary. -/
def metadataKeys : List String :=
  baseKeys ++ ["herausgeber", "issn", "sitzung_naechste_datum", "start_seitennr"]

/-- Pairing of each root-level XML attribute read by the Metadata extractor
with the dictionary field it populates. -/
def metadataAttrFields : List (String × String) :=
  [("wahlperiode", "wahlperiode"), ("sitzung-nr", "sitzung_nr"),
   ("sitzung-datum", "sitzung_datum"), ("sitzung-ort", "sitzung_ort"),
   ("sitzung-start-uhrzeit", "sitzung_start"),
   ("sitzung-ende-uhrzeit", "sitzung_ende"), ("herausgeber", "herausgeber"),
   ("issn", "issn"), ("sitzung-naechste-datum", "sitzung_naechste_datum"),
   ("start-seitennr", "start_seitennr")]

/-- Well-formed example document without attributes or children. -/
def bareRoot : XmlNode := .mk "dbtplenarprotokoll" [] none []

/-- Example speech node with one content paragraph. -/
def redeSolo : XmlNode :=
  .mk "rede" [("id", "ID001")] none
    [.mk "p" [("klasse", "J_1")] (some " Erster Absatz. ") []]

/-- Example document containing exactly one speech. -/
def oneRedeDoc : XmlNode :=
  .mk "dbtplenarprotokoll" [("wahlperiode", "21")] none [redeSolo]

/-- Second example speech node. -/
def redeZwei : XmlNode :=
  .mk "rede" [("id", "ID002")] none
    [.mk "p" [("klasse", "J_1")] (some "Zweite Rede.") []]

/-- Example document containing two speeches. -/
def twoRedeDoc : XmlNode :=
  .mk "dbtplenarprotokoll" [] none [redeSolo, redeZwei]

/-- Example document with two speaker nodes sharing one id, neither of which
has a `./name` child. -/
def dupNoNameDoc : XmlNode :=
  .mk "dbtplenarprotokoll" [] none
    [.mk "redner" [("id", "A")] none [],
     .mk "redner" [("id", "A")] none []]

/-- Example speech node with a speaker-identification paragraph followed by
content paragraphs. -/
def redeMitRedner : XmlNode :=
  .mk "rede" [("id", "ID003")] none
    [.mk "p" [("klasse", "redner")] none
       [.mk "redner" [("id", "SPK1")] none
          [.mk "name" [] none
             [.mk "vorname" [] (some "Anna") [],
              .mk "nachname" [] (some "Muster") []]]],
     .mk "p" [("klasse", "J_1")] (some " Guten Tag. ") [],
     .mk "p" [("klasse", "J_1")] (some "Danke.") []]

/-- Example document containing the speech with a speaker paragraph. -/
def rednerRedeDoc : XmlNode :=
  .mk "dbtplenarprotokoll" [] none [redeMitRedner]

/-- Example speech record used to exercise the keyword search. -/
def searchSpeechRec : SpeechRec :=
  { id := some "ID009", redner := none
  , inhalt := "Der Klimaschutz ist wichtig.", kommentare := [] }

/-- C8: the resource factory is exhaustive over the closed resource-kind
enumeration: every enumerated tag applied to a parsed payload yields an entity
without error, and any tag outside the enumeration fails with
`UnsupportedResourceKind` rather than defaulting. -/
theorem claim8_factory_exhaustive (tag : String) (root : XmlNode)
    (parsed : Option XmlNode) (sid : Option String) :
    (tag ∈ resourceTags → ∃ d, createResource tag (some root) sid = .ok d) ∧
    (tag ∉ resourceTags →
      createResource tag parsed sid = .error .unsupportedResourceKind) := by
  constructor
  · intro hmem
    simp only [resourceTags, List.mem_cons, List.not_mem_nil, or_false] at hmem
    rcases hmem with h | h | h | h | h | h | h <;> subst h <;> exact ⟨_, rfl⟩
  · intro hnot
    simp only [resourceTags, List.mem_cons, List.not_mem_nil, or_false] at hnot
    push_neg at hnot
    obtain ⟨h1, h2, h3, h4, h5, h6, h7⟩ := hnot
    simp [createResource, h1, h2, h3, h4, h5, h6, h7]

/-- Witness for C8 at concrete inputs: the tag `metadata` is enumerated and
produces an entity; the tag `bogus` is outside the enumeration and fails with
`UnsupportedResourceKind`. -/
theorem claim8_factory_exhaustive_witness :
    (∃ d, createResource "metadata" (some bareRoot) none = .ok d) ∧
    createResource "bogus" none none = .error .unsupportedResourceKind :=
  ⟨(claim8_factory_exhaustive "metadata" bareRoot none none).1 (by decide),
   (claim8_factory_exhaustive "bogus" bareRoot none none).2 (by decide)⟩

/-- C9: the protocol cache is a two-state machine: from an unpopulated state a
failed fetch leaves it unpopulated and surfaces the failure (`none`) to the
caller; a populated cache is returned unchanged with no fetch, for every later
call in the process lifetime; and the cache can become populated only by a
successful fetch, whose result is the new state. -/
theorem claim9_cache_two_state (st f : Option Payload) (fs : List (Option Payload)) :
    (truthyPayload st = false →
      cacheCall st none = { state := none, ret := none, fetched := true }) ∧
    (truthyPayload st = true →
      cacheCall st f = { state := st, ret := st, fetched := false }) ∧
    (truthyPayload st = true → runCalls st fs = (st, 0)) ∧
    (truthyPayload (cacheCall st f).state = true →
      truthyPayload st = true ∨
        ((cacheCall st f).fetched = true ∧ (cacheCall st f).state = f ∧
          truthyPayload f = true)) := by
  refine ⟨?_, ?_, ?_, ?_⟩
  · intro h; simp [cacheCall, h]
  · intro h; simp [cacheCall, h]
  · intro h
    induction fs with
    | nil => simp [runCalls]
    | cons g gs ih => simp [runCalls, cacheCall, h] at ih ⊢; exact ih
  · intro h2
    by_cases h : truthyPayload st = true
    · exact Or.inl h
    · right
      have hc : cacheCall st f = { state := f, ret := f, fetched := true } := by
        simp [cacheCall, h]
      rw [hc] at h2 ⊢
      exact ⟨rfl, rfl, h2⟩

/-- Witness for C9 at concrete inputs: a failed first fetch leaves the cache
empty and returns `none`; a populated cache serves two further calls with zero
fetches. -/
theorem claim9_cache_two_state_witness :
    cacheCall none none = { state := none, ret := none, fetched := true } ∧
    runCalls (some [1]) [some [2], none] = (some [1], 0) :=
  ⟨(claim9_cache_two_state none none []).1 rfl,
   (claim9_cache_two_state (some [1]) none [some [2], none]).2.2.1 rfl⟩

/-- Counterexample for C1 as stated: on a well-formed document whose root
carries no attributes, the Metadata extraction succeeds but resolves the
absent `wahlperiode` attribute to `None` (`vnull`), which is neither the empty
string nor an empty sequence, so absent substructures do not always resolve to
an empty string or empty sequence. -/
theorem claim1_cex :
    createResource "metadata" (some bareRoot) none = .ok (sessionMetadataDict bareRoot) ∧
    dlookup (sessionMetadataDict bareRoot) "wahlperiode" = some Val.vnull ∧
    Val.vnull ≠ Val.vstr "" ∧ Val.vnull ≠ Val.vlist [] :=
  ⟨rfl, rfl, fun hcon => Val.noConfusion hcon, fun hcon => Val.noConfusion hcon⟩

/-- C1, amended: for every parsed document every extractor completes without
raising (returns `ok`, regardless of which optional nodes or attributes are
absent; absent nodes resolve to empty strings or empty sequences while absent
attributes resolve to null), and for a payload that is not well-formed XML
every extractor fails with `MalformedDocument` and produces no partial
output. -/
theorem claim1_extraction_total (root : XmlNode) (sid : Option String) :
    List.Forall
      (fun tag => createResource tag none sid = .error .malformedDocument)
      resourceTags ∧
    List.Forall
      (fun tag => (createResource tag (some root) sid).isOk = true)
      resourceTags ∧
    (root.getAttr "wahlperiode" = none →
      dlookup (sessionMetadataDict root) "wahlperiode" = some Val.vnull) ∧
    (findDesc root "inhaltsverzeichnis" = none →
      dlookup (tocDict root) "titel" = some (Val.vstr "") ∧
      dlookup (tocDict root) "eintraege" = some (Val.vlist [])) := by
  refine ⟨?_, ?_, ?_, ?_⟩
  · exact ⟨rfl, rfl, rfl, rfl, rfl, rfl, rfl⟩
  · exact ⟨rfl, rfl, rfl, rfl, rfl, rfl, rfl⟩
  · intro h
    have hb : dlookup (sessionMetadataDict root) "wahlperiode" =
        some (Val.ofOpt (root.getAttr "wahlperiode")) := rfl
    rw [hb, h]
    rfl
  · intro h
    have ht : tocObj root = [("titel", Val.vstr ""), ("eintraege", Val.vlist [])] := by
      simp [tocObj, h]
    constructor
    · show dlookup (dictUpdate (baseDict root) (tocObj root)) "titel" = _
      rw [ht]
      rfl
    · show dlookup (dictUpdate (baseDict root) (tocObj root)) "eintraege" = _
      rw [ht]
      rfl

/-- Witness for C1 at a concrete input: the attribute-free document has no
`wahlperiode` attribute and no table-of-contents node, the field is null and
the table of contents is empty. -/
theorem claim1_extraction_total_witness :
    dlookup (sessionMetadataDict bareRoot) "wahlperiode" = some Val.vnull ∧
    dlookup (tocDict bareRoot) "titel" = some (Val.vstr "") :=
  ⟨(claim1_extraction_total bareRoot none).2.2.1 rfl,
   ((claim1_extraction_total bareRoot none).2.2.2 rfl).1⟩

/-- Counterexample for C2 as stated: the root of `bareRoot` has no `issn`
attribute, and the Metadata extractor's output holds `None` (`vnull`) for that
field, not the empty string. -/
theorem claim2_cex :
    bareRoot.getAttr "issn" = none ∧
    dlookup (sessionMetadataDict bareRoot) "issn" = some Val.vnull ∧
    some Val.vnull ≠ some (Val.vstr "") := by
  refine ⟨rfl, rfl, fun hcon => ?_⟩
  injection hcon with hcon2
  exact Val.noConfusion hcon2

/-- Helper for C2: a metadata field holding the raw `Element.get` result of an
absent attribute holds null. -/
theorem dlookup_sm_attr (root : XmlNode) (a f : String)
    (hf : dlookup (sessionMetadataDict root) f = some (Val.ofOpt (root.getAttr a)))
    (h : root.getAttr a = none) :
    dlookup (sessionMetadataDict root) f = some Val.vnull := by
  rw [hf, h]
  rfl

/-- C2, amended: for every well-formed payload and every root-level metadata
attribute, absence of the attribute yields null (Python `None`) for the
corresponding field of the Metadata extractor's output — not an error; the
extraction always succeeds. -/
theorem claim2_absent_attr_null (root : XmlNode) (sid : Option String) :
    List.Forall
      (fun af => root.getAttr af.1 = none →
        dlookup (sessionMetadataDict root) af.2 = some Val.vnull)
      metadataAttrFields ∧
    createResource "metadata" (some root) sid = .ok (sessionMetadataDict root) := by
  constructor
  · exact ⟨fun h => dlookup_sm_attr root _ _ rfl h, fun h => dlookup_sm_attr root _ _ rfl h,
      fun h => dlookup_sm_attr root _ _ rfl h, fun h => dlookup_sm_attr root _ _ rfl h,
      fun h => dlookup_sm_attr root _ _ rfl h, fun h => dlookup_sm_attr root _ _ rfl h,
      fun h => dlookup_sm_attr root _ _ rfl h, fun h => dlookup_sm_attr root _ _ rfl h,
      fun h => dlookup_sm_attr root _ _ rfl h, fun h => dlookup_sm_attr root _ _ rfl h⟩
  · rfl

/-- Witness for C2 at a concrete input: the attribute-free document yields
null for the `sitzung_datum` field. -/
theorem claim2_absent_attr_null_witness :
    bareRoot.getAttr "sitzung-datum" = none ∧
    dlookup (sessionMetadataDict bareRoot) "sitzung_datum" = some Val.vnull := by
  have h := (claim2_absent_attr_null bareRoot none).1
  simp only [metadataAttrFields, List.Forall] at h
  exact ⟨rfl, h.2.2.1 rfl⟩

/-- Helper for the SpeakerList claims: the id-filtered view of the speaker
loop.  With an id already accumulated nothing further with that id is added;
otherwise exactly the record of the first remaining node carrying the id and
possessing a `./name` child is produced. -/
theorem speakerLoop_filter (rid : Option String) :
    ∀ (nodes : List XmlNode) (acc : List SpeakerInfo),
    (speakerLoop nodes acc).filter (fun s => s.id == rid) =
      if acc.any (fun s => s.id == rid) then acc.filter (fun s => s.id == rid)
      else (firstEligible nodes rid).toList := by
  intro nodes
  induction nodes with
  | nil =>
    intro acc
    by_cases hany : acc.any (fun s => s.id == rid) = true
    · simp [speakerLoop, hany]
    · rw [Bool.not_eq_true] at hany
      have hnil : acc.filter (fun s => s.id == rid) = [] :=
        List.filter_eq_nil_iff.mpr (List.any_eq_false.mp hany)
      simp [speakerLoop, hany, hnil, firstEligible]
  | cons r rest ih =>
    intro acc
    by_cases hdup : acc.any (fun s => s.id == r.getAttr "id") = true
    · rw [show speakerLoop (r :: rest) acc = speakerLoop rest acc from by
        simp [speakerLoop, hdup]]
      rw [ih acc]
      by_cases hany : acc.any (fun s => s.id == rid) = true
      · simp [hany]
      · have hr : (r.getAttr "id" == rid) = false := by
          rw [Bool.eq_false_iff]
          intro hcon
          rw [Bool.not_eq_true] at hany
          obtain ⟨s, hs, hsid⟩ := List.any_eq_true.mp hdup
          have h1 : s.id = r.getAttr "id" := by simpa using hsid
          have h2 : r.getAttr "id" = rid := by simpa using hcon
          have h3 : acc.any (fun s => s.id == rid) = true :=
            List.any_eq_true.mpr ⟨s, hs, by simp [h1, h2]⟩
          rw [hany] at h3
          exact Bool.noConfusion h3
        have hfe : firstEligible (r :: rest) rid = firstEligible rest rid := by
          simp only [firstEligible]
          rw [List.find?_cons_of_neg _ (by simp [hr])]
        rw [hfe]
    · cases hname : findChild r "name" with
      | none =>
        rw [show speakerLoop (r :: rest) acc = speakerLoop rest acc from by
          simp [speakerLoop, hdup, hname]]
        rw [ih acc]
        have hfe : firstEligible (r :: rest) rid = firstEligible rest rid := by
          simp only [firstEligible]
          rw [List.find?_cons_of_neg _ (by simp [hname])]
        rw [hfe]
      | some ne =>
        rw [show speakerLoop (r :: rest) acc
            = speakerLoop rest (acc ++ [mkSpeakerInfo (r.getAttr "id") ne]) from by
          simp [speakerLoop, hdup, hname]]
        rw [ih _]
        by_cases hr : (r.getAttr "id" == rid) = true
        · have hany : acc.any (fun s => s.id == rid) = false := by
            rw [Bool.eq_false_iff]
            intro hcon
            obtain ⟨s, hs, hsid⟩ := List.any_eq_true.mp hcon
            have h1 : s.id = rid := by simpa using hsid
            have h2 : r.getAttr "id" = rid := by simpa using hr
            exact hdup (List.any_eq_true.mpr ⟨s, hs, by simp [h1, h2]⟩)
          have hany2 : (acc ++ [mkSpeakerInfo (r.getAttr "id") ne]).any
              (fun s => s.id == rid) = true := by
            simp [List.any_append, mkSpeakerInfo, hr]
          have hnil : acc.filter (fun s => s.id == rid) = [] :=
            List.filter_eq_nil_iff.mpr (List.any_eq_false.mp hany)
          have hfil : (acc ++ [mkSpeakerInfo (r.getAttr "id") ne]).filter
              (fun s => s.id == rid) = [mkSpeakerInfo (r.getAttr "id") ne] := by
            rw [List.filter_append, hnil]
            simp [mkSpeakerInfo, hr]
          have hfe : firstEligible (r :: rest) rid
              = some (mkSpeakerInfo (r.getAttr "id") ne) := by
            simp only [firstEligible]
            rw [List.find?_cons_of_pos _ (by simp [hr, hname])]
            simp [hname]
          simp [hany2, hany, hfil, hfe]
        · have hr2 : (r.getAttr "id" == rid) = false := by
            rw [Bool.eq_false_iff]; exact hr
          have hanyEq : (acc ++ [mkSpeakerInfo (r.getAttr "id") ne]).any
              (fun s => s.id == rid) = acc.any (fun s => s.id == rid) := by
            simp [List.any_append, mkSpeakerInfo, hr2]
          have hfilEq : (acc ++ [mkSpeakerInfo (r.getAttr "id") ne]).filter
              (fun s => s.id == rid) = acc.filter (fun s => s.id == rid) := by
            rw [List.filter_append]
            simp [mkSpeakerInfo, hr2]
          have hfe : firstEligible (r :: rest) rid = firstEligible rest rid := by
            simp only [firstEligible]
            rw [List.find?_cons_of_neg _ (by simp [hr2])]
          rw [hanyEq, hfilEq, hfe]

/-- Helper for C4: the speaker loop preserves distinctness of the accumulated
ids, because a node whose id already occurs is skipped before anything else is
checked. -/
theorem speakerLoop_ids_nodup :
    ∀ (nodes : List XmlNode) (acc : List SpeakerInfo),
    (acc.map (fun s => s.id)).Nodup →
    ((speakerLoop nodes acc).map (fun s => s.id)).Nodup := by
  intro nodes
  induction nodes with
  | nil => intro acc h; simpa [speakerLoop] using h
  | cons r rest ih =>
    intro acc h
    by_cases hdup : acc.any (fun s => s.id == r.getAttr "id") = true
    · rw [show speakerLoop (r :: rest) acc = speakerLoop rest acc from by
        simp [speakerLoop, hdup]]
      exact ih acc h
    · cases hname : findChild r "name" with
      | none =>
        rw [show speakerLoop (r :: rest) acc = speakerLoop rest acc from by
          simp [speakerLoop, hdup, hname]]
        exact ih acc h
      | some ne =>
        rw [show speakerLoop (r :: rest) acc
            = speakerLoop rest (acc ++ [mkSpeakerInfo (r.getAttr "id") ne]) from by
          simp [speakerLoop, hdup, hname]]
        apply ih
        rw [List.map_append]
        refine List.Nodup.append h (by simp) ?_
        rw [show List.map (fun s => s.id) [mkSpeakerInfo (r.getAttr "id") ne]
            = [(mkSpeakerInfo (r.getAttr "id") ne).id] from rfl]
        rw [List.disjoint_singleton]
        intro hcon
        obtain ⟨s, hs, hsid⟩ := List.mem_map.mp hcon
        exact hdup (List.any_eq_true.mpr ⟨s, hs, by simp [mkSpeakerInfo] at hsid; simp [hsid]⟩)

/-- Counterexample for C4 as stated: `dupNoNameDoc` holds two speaker nodes
sharing the id `A`, yet the SpeakerList result contains no entry at all for
that id (both nodes lack a `./name` child), so the result does not contain
exactly one entry for the shared id, and no entry is built from the first
occurrence. -/
theorem claim4_cex :
    (findallDesc dupNoNameDoc "redner").length = 2 ∧
    (findallDesc dupNoNameDoc "redner").map (fun r => r.getAttr "id")
      = [some "A", some "A"] ∧
    extractSpeakers dupNoNameDoc = [] :=
  ⟨rfl, rfl, rfl⟩

/-- C4, amended: for every well-formed XML payload the SpeakerList result
contains at most one entry per speaker id; given a document with two speaker
nodes sharing one id, the result contains at most one entry for that id — it
is built from the first of those nodes possessing a `./name` child, and when
no node with that id has a `./name` child there is no entry for it at all. -/
theorem claim4_speaker_ids_unique (root : XmlNode) (rid : Option String) :
    ((extractSpeakers root).map (fun s => s.id)).Nodup ∧
    ((extractSpeakers root).filter (fun s => s.id == rid)).length ≤ 1 := by
  constructor
  · exact speakerLoop_ids_nodup _ [] (by simp)
  · rw [extractSpeakers, speakerLoop_filter rid _ []]
    cases firstEligible (findallDesc root "redner") rid <;> simp

/-- C10: in the SpeakerList extractor the duplicate-id check precedes the
name-child check, and the duplicate check consults only already-retained
entries; hence for each speaker id the retained entry (if any) is the record
of the first speaker node with that id that has a `./name` child — a same-id
node without a name child is skipped and does not suppress a later node with
that id. -/
theorem claim10_speaker_first_with_name (root : XmlNode) (rid : Option String) :
    (extractSpeakers root).filter (fun s => s.id == rid) =
      (firstEligible (findallDesc root "redner") rid).toList := by
  rw [extractSpeakers, speakerLoop_filter rid _ []]
  simp

/-- Helper for the Speech claims: with a truthy requested id the speech loop
returns exactly the record of the first node whose id matches, or nothing. -/
theorem speechLoop_truthy (sid : Option String) (h : specTruthy sid = true) :
    ∀ nodes : List XmlNode,
    speechLoop sid nodes =
      ((nodes.find? (fun n => n.getAttr "id" == sid)).map buildSpeech).toList := by
  intro nodes
  induction nodes with
  | nil => simp [speechLoop]
  | cons n rest ih =>
    by_cases hid : (n.getAttr "id" == sid) = true
    · rw [show speechLoop sid (n :: rest) = [buildSpeech n] from by
        simp [speechLoop, h, hid]]
      rw [@List.find?_cons_of_pos _ (fun m => m.getAttr "id" == sid) n rest hid]
      rfl
    · rw [show speechLoop sid (n :: rest) = speechLoop sid rest from by
        simp [speechLoop, h, hid]]
      rw [@List.find?_cons_of_neg _ (fun m => m.getAttr "id" == sid) n rest hid]
      exact ih

/-- Helper: with no requested id (or the falsy empty string) every `rede`
node yields its speech record. -/
theorem speechLoop_all (sid : Option String) (h : specTruthy sid = false) :
    ∀ nodes : List XmlNode, speechLoop sid nodes = nodes.map buildSpeech := by
  intro nodes
  induction nodes with
  | nil => simp [speechLoop]
  | cons n rest ih => simp [speechLoop, h, ih]

/-- Helper: every record produced by the speech loop is built from some node
of the scanned list. -/
theorem speechLoop_mem (sid : Option String) :
    ∀ (nodes : List XmlNode) (sp : SpeechRec),
    sp ∈ speechLoop sid nodes → ∃ n ∈ nodes, sp = buildSpeech n := by
  intro nodes
  induction nodes with
  | nil => intro sp hsp; simp [speechLoop] at hsp
  | cons n rest ih =>
    intro sp hsp
    by_cases hc1 : (specTruthy sid && !(n.getAttr "id" == sid)) = true
    · rw [show speechLoop sid (n :: rest) = speechLoop sid rest from by
        simp only [speechLoop, hc1, if_true]] at hsp
      obtain ⟨m, hm, he⟩ := ih sp hsp
      exact ⟨m, List.mem_cons_of_mem _ hm, he⟩
    · by_cases hc2 : (specTruthy sid && (n.getAttr "id" == sid)) = true
      · rw [show speechLoop sid (n :: rest) = [buildSpeech n] from by
          simp only [speechLoop, hc1, hc2, if_true, if_false]
          simp [hc1]] at hsp
        rw [List.mem_singleton] at hsp
        exact ⟨n, List.mem_cons_self n rest, hsp⟩
      · rw [show speechLoop sid (n :: rest) = buildSpeech n :: speechLoop sid rest from by
          simp only [speechLoop]
          simp [hc1, hc2]] at hsp
        rcases List.mem_cons.mp hsp with he | hm
        · exact ⟨n, List.mem_cons_self n rest, he⟩
        · obtain ⟨m, hm2, he⟩ := ih sp hm
          exact ⟨m, List.mem_cons_of_mem _ hm2, he⟩

/-- Helper equalities for the Speech dictionary: lookups of the two result
keys over the base metadata dictionary. -/
theorem dlookup_rede_self (root : XmlNode) (v : Val) :
    dlookup (setKey (baseDict root) "rede" v) "rede" = some v := rfl

/-- Helper: the single-object key is absent from a sequence-shaped result. -/
theorem dlookup_reden_no_rede (root : XmlNode) (v : Val) :
    dlookup (setKey (baseDict root) "reden" v) "rede" = none := rfl

/-- Helper: lookup of the sequence key. -/
theorem dlookup_reden_self (root : XmlNode) (v : Val) :
    dlookup (setKey (baseDict root) "reden" v) "reden" = some v := rfl

/-- Helper: the sequence key is absent from a single-object result. -/
theorem dlookup_rede_no_reden (root : XmlNode) (v : Val) :
    dlookup (setKey (baseDict root) "rede" v) "reden" = none := rfl

/-- Counterexample for C3 as stated: `oneRedeDoc` holds exactly one `rede`
node; extraction with no requested id yields one speech and `to_dict` emits
it as a single object under the `rede` key (no `reden` sequence), although no
specific id was requested — so a single object is not emitted exactly when a
specific id was requested and one result exists. -/
theorem claim3_cex :
    specTruthy none = false ∧
    (extractSpeeches oneRedeDoc none).length = 1 ∧
    (dlookup (speechDict oneRedeDoc none) "rede").isSome = true ∧
    dlookup (speechDict oneRedeDoc none) "reden" = none :=
  ⟨rfl, rfl, rfl, rfl⟩

/-- C3, amended: requesting a non-empty speech id that matches some `rede`
node yields exactly the first matching speech, presented as a single object;
requesting an id that matches no node yields the empty sequence, not an
error; and the output is a single object exactly when exactly one speech was
extracted — whether or not a specific id was requested. -/
theorem claim3_speech_by_id (root : XmlNode) (sidO : Option String) :
    (∀ sid r, sidO = some sid → ¬sid = "" →
      (findallDesc root "rede").find? (fun n => n.getAttr "id" == sidO) = some r →
      extractSpeeches root sidO = [buildSpeech r] ∧
      dlookup (speechDict root sidO) "rede" = some (speechVal (buildSpeech r)) ∧
      dlookup (speechDict root sidO) "reden" = none) ∧
    (∀ sid, sidO = some sid → ¬sid = "" →
      (findallDesc root "rede").find? (fun n => n.getAttr "id" == sidO) = none →
      extractSpeeches root sidO = [] ∧
      dlookup (speechDict root sidO) "reden" = some (Val.vlist []) ∧
      dlookup (speechDict root sidO) "rede" = none) ∧
    ((dlookup (speechDict root sidO) "rede").isSome = true ↔
      (extractSpeeches root sidO).length = 1) ∧
    ((extractSpeeches root sidO).length ≠ 1 →
      dlookup (speechDict root sidO) "reden"
        = some (Val.vlist ((extractSpeeches root sidO).map speechVal))) := by
  refine ⟨?_, ?_, ?_, ?_⟩
  · intro sid r hs hne hfind
    subst hs
    have ht : specTruthy (some sid) = true := by simp [specTruthy, hne]
    have he : extractSpeeches root (some sid) = [buildSpeech r] := by
      rw [extractSpeeches, speechLoop_truthy _ ht, hfind]
      rfl
    have hd : speechDict root (some sid)
        = setKey (baseDict root) "rede" (speechVal (buildSpeech r)) := by
      simp [speechDict, he]
    exact ⟨he, by rw [hd, dlookup_rede_self], by rw [hd, dlookup_rede_no_reden]⟩
  · intro sid hs hne hfind
    subst hs
    have ht : specTruthy (some sid) = true := by simp [specTruthy, hne]
    have he : extractSpeeches root (some sid) = [] := by
      rw [extractSpeeches, speechLoop_truthy _ ht, hfind]
      rfl
    have hd : speechDict root (some sid)
        = setKey (baseDict root) "reden" (Val.vlist []) := by
      simp [speechDict, he]
    exact ⟨he, by rw [hd, dlookup_reden_self], by rw [hd, dlookup_reden_no_rede]⟩
  · rcases he : extractSpeeches root sidO with _ | ⟨a, _ | ⟨b, t⟩⟩
    · have hd : speechDict root sidO = setKey (baseDict root) "reden" (Val.vlist []) := by
        simp [speechDict, he]
      rw [hd, dlookup_reden_no_rede]
      simp
    · have hd : speechDict root sidO
          = setKey (baseDict root) "rede" (speechVal a) := by
        simp [speechDict, he]
      rw [hd, dlookup_rede_self]
      simp
    · have hd : speechDict root sidO
          = setKey (baseDict root) "reden"
              (Val.vlist ((a :: b :: t).map speechVal)) := by
        simp [speechDict, he]
      rw [hd, dlookup_reden_no_rede]
      simp
  · intro hne
    rcases he : extractSpeeches root sidO with _ | ⟨a, _ | ⟨b, t⟩⟩
    · have hd : speechDict root sidO = setKey (baseDict root) "reden" (Val.vlist []) := by
        simp [speechDict, he]
      rw [hd, dlookup_reden_self]
      rfl
    · rw [he] at hne
      simp at hne
    · have hd : speechDict root sidO
          = setKey (baseDict root) "reden"
              (Val.vlist ((a :: b :: t).map speechVal)) := by
        simp [speechDict, he]
      rw [hd, dlookup_reden_self]

/-- Witness for C3 at a concrete input: requesting the id `ID002` on the
two-speech document yields the second speech, as a single object. -/
theorem claim3_speech_by_id_witness :
    extractSpeeches twoRedeDoc (some "ID002") = [buildSpeech redeZwei] ∧
    dlookup (speechDict twoRedeDoc (some "ID002")) "rede"
      = some (speechVal (buildSpeech redeZwei)) := by
  have h := (claim3_speech_by_id twoRedeDoc (some "ID002")).1 "ID002" redeZwei rfl
    (by decide) rfl
  exact ⟨h.1, h.2.1⟩

/-- C5: every extracted speech stems from a `rede` node; its content is the
newline-join of the trimmed texts of exactly those paragraphs beneath the node
that are not classed as speaker paragraphs and have non-empty text, in
document order; in particular the content never draws on the paragraph node
used to identify the speaker. -/
theorem claim5_speech_content (root : XmlNode) (sidO : Option String)
    (sp : SpeechRec) (hmem : sp ∈ extractSpeeches root sidO) :
    ∃ rede, rede ∈ findallDesc root "rede" ∧ sp = buildSpeech rede ∧
      sp.inhalt = String.intercalate "\n"
        ((speechContribs rede).map (fun p => p.textD.trim)) ∧
      (∀ p, identParagraph rede = some p → p ∉ speechContribs rede) := by
  obtain ⟨rede, hr, he⟩ := speechLoop_mem sidO _ sp hmem
  refine ⟨rede, hr, he, by rw [he]; rfl, ?_⟩
  intro p hp hcon
  have hmem2 : p ∈ rede.children.filter
      (fun q => q.tag == "p" && q.getAttr "klasse" == some "redner"
        && q.children.any (fun c => c.tag == "redner")) := by
    simp only [identParagraph] at hp
    exact List.mem_of_mem_head? (by rw [hp]; rfl)
  have hklasse : (p.getAttr "klasse" == some "redner") = true := by
    have h2 := (List.mem_filter.mp hmem2).2
    simp only [Bool.and_eq_true] at h2
    exact h2.1.2
  have h3 := (List.mem_filter.mp hcon).2
  rw [hklasse] at h3
  simp at h3

/-- Witness for C5 at a concrete input: the extracted speech of the example
document with a speaker paragraph satisfies the content characterisation. -/
theorem claim5_speech_content_witness :
    buildSpeech redeMitRedner ∈ extractSpeeches rednerRedeDoc none ∧
    (∃ rede, rede ∈ findallDesc rednerRedeDoc "rede" ∧
      buildSpeech redeMitRedner = buildSpeech rede ∧
      (buildSpeech redeMitRedner).inhalt = String.intercalate "\n"
        ((speechContribs rede).map (fun p => p.textD.trim)) ∧
      (∀ p, identParagraph rede = some p → p ∉ speechContribs rede)) := by
  have hm : buildSpeech redeMitRedner ∈ extractSpeeches rednerRedeDoc none := by
    rw [show extractSpeeches rednerRedeDoc none = [buildSpeech redeMitRedner] from rfl]
    exact List.mem_singleton.mpr rfl
  exact ⟨hm, claim5_speech_content rednerRedeDoc none _ hm⟩

/-- Helper: setting a key leaves the lookup of a different key unchanged. -/
theorem dlookup_setKey_ne (d : List (String × Val)) (k : String) (v : Val)
    (q : String) (h : ¬k = q) : dlookup (setKey d k v) q = dlookup d q := by
  induction d with
  | nil => simp [setKey, dlookup, h]
  | cons kv rest ih =>
    obtain ⟨k0, v0⟩ := kv
    by_cases hk : k0 = k
    · subst hk
      simp [setKey, dlookup, h]
    · by_cases hq : k0 = q
      · subst hq
        simp [setKey, hk, dlookup]
      · simp [setKey, hk, dlookup, hq, ih]

/-- Helper: a dictionary update whose keys all differ from the looked-up key
does not change the lookup. -/
theorem dlookup_dictUpdate_ne (us : List (String × Val)) :
    ∀ (d : List (String × Val)) (q : String), (∀ kv ∈ us, ¬kv.1 = q) →
    dlookup (dictUpdate d us) q = dlookup d q := by
  induction us with
  | nil => intro d q h; rfl
  | cons kv rest ih =>
    intro d q h
    rw [show dictUpdate d (kv :: rest) = dictUpdate (setKey d kv.1 kv.2) rest from rfl]
    rw [ih _ q (fun x hx => h x (List.mem_cons_of_mem _ hx))]
    exact dlookup_setKey_ne d kv.1 kv.2 q (h kv (List.mem_cons_self _ _))

/-- Helper: every key of the table-of-contents object is one of its three
fixed keys. -/
theorem tocObj_key_mem (root : XmlNode) (kv : String × Val) (h : kv ∈ tocObj root) :
    kv.1 = "titel" ∨ kv.1 = "eintraege" ∨ kv.1 = "bloecke" := by
  rcases hf : findDesc root "inhaltsverzeichnis" with _ | ivz
  · simp only [tocObj, hf, List.mem_cons, List.not_mem_nil, or_false] at h
    rcases h with h | h <;> simp [h]
  · simp only [tocObj, hf, List.mem_cons, List.not_mem_nil, or_false] at h
    rcases h with h | h | h <;> simp [h]

/-- Helper: the table-of-contents dictionary agrees with the base metadata on
every key other than the three table-of-contents keys. -/
theorem dlookup_tocDict_base (root : XmlNode) (q : String)
    (h1 : ¬"titel" = q) (h2 : ¬"eintraege" = q) (h3 : ¬"bloecke" = q) :
    dlookup (tocDict root) q = dlookup (baseDict root) q := by
  show dlookup (dictUpdate (baseDict root) (tocObj root)) q = dlookup (baseDict root) q
  exact dlookup_dictUpdate_ne (tocObj root) (baseDict root) q
    (fun kv hkv => by rcases tocObj_key_mem root kv hkv with h | h | h <;>
      rw [h] <;> assumption)

/-- Helper: the speech dictionary agrees with the base metadata on every key
other than `rede` and `reden`. -/
theorem dlookup_speechDict_base (root : XmlNode) (sid : Option String) (q : String)
    (h1 : ¬"rede" = q) (h2 : ¬"reden" = q) :
    dlookup (speechDict root sid) q = dlookup (baseDict root) q := by
  rcases he : extractSpeeches root sid with _ | ⟨a, _ | ⟨b, t⟩⟩
  · rw [show speechDict root sid = setKey (baseDict root) "reden" (Val.vlist [])
      from by simp [speechDict, he]]
    exact dlookup_setKey_ne _ _ _ _ h2
  · rw [show speechDict root sid = setKey (baseDict root) "rede" (speechVal a)
      from by simp [speechDict, he]]
    exact dlookup_setKey_ne _ _ _ _ h1
  · rw [show speechDict root sid
        = setKey (baseDict root) "reden" (Val.vlist ((a :: b :: t).map speechVal))
      from by simp [speechDict, he]]
    exact dlookup_setKey_ne _ _ _ _ h2

/-- Helper: looking up a key different from the four keys set by the
full-protocol composer peels all four assignments. -/
theorem dlookup_four_setKeys (d : List (String × Val)) (v1 v2 v3 v4 : Val)
    (q : String) (h1 : ¬"inhaltsverzeichnis" = q) (h2 : ¬"tagesordnungspunkte" = q)
    (h3 : ¬"redner" = q) (h4 : ¬"anlagen" = q) :
    dlookup (setKey (setKey (setKey (setKey d "inhaltsverzeichnis" v1)
      "tagesordnungspunkte" v2) "redner" v3) "anlagen" v4) q = dlookup d q := by
  rw [dlookup_setKey_ne _ _ _ _ h4, dlookup_setKey_ne _ _ _ _ h3,
      dlookup_setKey_ne _ _ _ _ h2, dlookup_setKey_ne _ _ _ _ h1]

/-- Helper: for any key other than the composer's four own keys, the
full-protocol dictionary looks up into the metadata-merged base. -/
theorem dlookup_full_peel (root : XmlNode) (q : String)
    (h1 : ¬"inhaltsverzeichnis" = q) (h2 : ¬"tagesordnungspunkte" = q)
    (h3 : ¬"redner" = q) (h4 : ¬"anlagen" = q) :
    dlookup (fullProtocolDict root) q =
      dlookup (dictUpdate (baseDict root)
        ((sessionMetadataDict root).filter
          (fun kv => (dlookup (baseDict root) kv.1).isNone))) q :=
  dlookup_four_setKeys _ _ _ _ _ q h1 h2 h3 h4

/-- Helper: the six-way agreement of the entity dictionaries with the
session-metadata dictionary at one key, given that the key avoids every
entity-specific key and that the base dictionary agrees with the
session-metadata dictionary there. -/
theorem entity_base_key_agree (root : XmlNode) (sid : Option String) (q : String)
    (ht1 : ¬"titel" = q) (ht2 : ¬"eintraege" = q) (ht3 : ¬"bloecke" = q)
    (ha : ¬"tagesordnungspunkte" = q) (hr : ¬"redner" = q) (han : ¬"anlagen" = q)
    (hs1 : ¬"rede" = q) (hs2 : ¬"reden" = q)
    (hbase : dlookup (baseDict root) q = dlookup (sessionMetadataDict root) q) :
    dlookup (tocDict root) q = dlookup (sessionMetadataDict root) q ∧
    dlookup (agendaDict root) q = dlookup (sessionMetadataDict root) q ∧
    dlookup (speakersDict root) q = dlookup (sessionMetadataDict root) q ∧
    dlookup (speechDict root sid) q = dlookup (sessionMetadataDict root) q ∧
    dlookup (attachmentsDict root) q = dlookup (sessionMetadataDict root) q := by
  refine ⟨Eq.trans (dlookup_tocDict_base root q ht1 ht2 ht3) hbase, ?_, ?_,
    Eq.trans (dlookup_speechDict_base root sid q hs1 hs2) hbase, ?_⟩
  · exact Eq.trans (show dlookup (agendaDict root) q = dlookup (baseDict root) q
      from dlookup_setKey_ne _ _ _ _ ha) hbase
  · exact Eq.trans (show dlookup (speakersDict root) q = dlookup (baseDict root) q
      from dlookup_setKey_ne _ _ _ _ hr) hbase
  · exact Eq.trans (show dlookup (attachmentsDict root) q = dlookup (baseDict root) q
      from dlookup_setKey_ne _ _ _ _ han) hbase

/-- C6: on any one document, each entity kind's metadata sub-fields agree with
the Metadata extractor's output on every base metadata key; and in the
full-protocol merge no later extractor overwrites an existing key, so the full
protocol agrees with the Metadata extractor on every shared (metadata) key and
with the base metadata on every base key. -/
theorem claim6_metadata_agreement (root : XmlNode) (sid : Option String) :
    List.Forall (fun k =>
      dlookup (tocDict root) k = dlookup (sessionMetadataDict root) k ∧
      dlookup (agendaDict root) k = dlookup (sessionMetadataDict root) k ∧
      dlookup (speakersDict root) k = dlookup (sessionMetadataDict root) k ∧
      dlookup (speechDict root sid) k = dlookup (sessionMetadataDict root) k ∧
      dlookup (attachmentsDict root) k = dlookup (sessionMetadataDict root) k)
      baseKeys ∧
    List.Forall (fun k =>
      dlookup (fullProtocolDict root) k = dlookup (sessionMetadataDict root) k)
      metadataKeys ∧
    List.Forall (fun k =>
      dlookup (fullProtocolDict root) k = dlookup (baseDict root) k)
      baseKeys := by
  refine ⟨?_, ?_, ?_⟩
  · simp only [baseKeys, List.Forall]
    exact ⟨entity_base_key_agree root sid "wahlperiode" (by decide) (by decide)
        (by decide) (by decide) (by decide) (by decide) (by decide) (by decide) rfl,
      entity_base_key_agree root sid "sitzung_nr" (by decide) (by decide)
        (by decide) (by decide) (by decide) (by decide) (by decide) (by decide) rfl,
      entity_base_key_agree root sid "sitzung_datum" (by decide) (by decide)
        (by decide) (by decide) (by decide) (by decide) (by decide) (by decide) rfl,
      entity_base_key_agree root sid "sitzung_ort" (by decide) (by decide)
        (by decide) (by decide) (by decide) (by decide) (by decide) (by decide) rfl,
      entity_base_key_agree root sid "sitzung_start" (by decide) (by decide)
        (by decide) (by decide) (by decide) (by decide) (by decide) (by decide) rfl,
      entity_base_key_agree root sid "sitzung_ende" (by decide) (by decide)
        (by decide) (by decide) (by decide) (by decide) (by decide) (by decide) rfl⟩
  · simp only [metadataKeys, baseKeys, List.Forall, List.cons_append, List.nil_append]
    exact ⟨Eq.trans (dlookup_full_peel root "wahlperiode" (by decide) (by decide)
        (by decide) (by decide)) rfl,
      Eq.trans (dlookup_full_peel root "sitzung_nr" (by decide) (by decide)
        (by decide) (by decide)) rfl,
      Eq.trans (dlookup_full_peel root "sitzung_datum" (by decide) (by decide)
        (by decide) (by decide)) rfl,
      Eq.trans (dlookup_full_peel root "sitzung_ort" (by decide) (by decide)
        (by decide) (by decide)) rfl,
      Eq.trans (dlookup_full_peel root "sitzung_start" (by decide) (by decide)
        (by decide) (by decide)) rfl,
      Eq.trans (dlookup_full_peel root "sitzung_ende" (by decide) (by decide)
        (by decide) (by decide)) rfl,
      Eq.trans (dlookup_full_peel root "herausgeber" (by decide) (by decide)
        (by decide) (by decide)) rfl,
      Eq.trans (dlookup_full_peel root "issn" (by decide) (by decide)
        (by decide) (by decide)) rfl,
      Eq.trans (dlookup_full_peel root "sitzung_naechste_datum" (by decide) (by decide)
        (by decide) (by decide)) rfl,
      Eq.trans (dlookup_full_peel root "start_seitennr" (by decide) (by decide)
        (by decide) (by decide)) rfl⟩
  · simp only [baseKeys, List.Forall]
    exact ⟨Eq.trans (dlookup_full_peel root "wahlperiode" (by decide) (by decide)
        (by decide) (by decide)) rfl,
      Eq.trans (dlookup_full_peel root "sitzung_nr" (by decide) (by decide)
        (by decide) (by decide)) rfl,
      Eq.trans (dlookup_full_peel root "sitzung_datum" (by decide) (by decide)
        (by decide) (by decide)) rfl,
      Eq.trans (dlookup_full_peel root "sitzung_ort" (by decide) (by decide)
        (by decide) (by decide)) rfl,
      Eq.trans (dlookup_full_peel root "sitzung_start" (by decide) (by decide)
        (by decide) (by decide)) rfl,
      Eq.trans (dlookup_full_peel root "sitzung_ende" (by decide) (by decide)
        (by decide) (by decide)) rfl⟩

/-- Helper: a prefix is no longer than the list it prefixes. -/
theorem isPrefixOf_imp_le : ∀ (n l : List Char), n.isPrefixOf l = true →
    n.length ≤ l.length := by
  intro n
  induction n with
  | nil => intro l h; simp
  | cons a as ih =>
    intro l h
    cases l with
    | nil => simp [List.isPrefixOf] at h
    | cons b bs =>
      simp only [List.isPrefixOf, Bool.and_eq_true] at h
      have := ih bs h.2
      simp only [List.length_cons]
      omega

/-- Helper: the Python substring test holds exactly when the needle occurs as
a prefix of some suffix, i.e. as a literal unanchored substring. -/
theorem containsSub_iff (needle : List Char) :
    ∀ hay : List Char, containsSub needle hay = true ↔
      ∃ i, i ≤ hay.length ∧ needle.isPrefixOf (hay.drop i) = true := by
  intro hay
  induction hay with
  | nil =>
    constructor
    · intro h
      refine ⟨0, Nat.le_refl 0, ?_⟩
      have hn : needle = [] := by
        cases needle with
        | nil => rfl
        | cons a as => simp [containsSub] at h
      subst hn
      rfl
    · rintro ⟨i, hi, hp⟩
      rw [List.drop_nil] at hp
      cases needle with
      | nil => rfl
      | cons a as => simp [List.isPrefixOf] at hp
  | cons c rest ih =>
    constructor
    · intro h
      rw [show containsSub needle (c :: rest)
          = (needle.isPrefixOf (c :: rest) || containsSub needle rest) from rfl] at h
      rw [Bool.or_eq_true] at h
      rcases h with hp | hc
      · exact ⟨0, Nat.zero_le _, by simpa using hp⟩
      · obtain ⟨i, hi, hp⟩ := ih.mp hc
        refine ⟨i + 1, ?_, ?_⟩
        · simp only [List.length_cons]; omega
        · rw [List.drop_succ_cons]; exact hp
    · rintro ⟨i, hi, hp⟩
      rw [show containsSub needle (c :: rest)
          = (needle.isPrefixOf (c :: rest) || containsSub needle rest) from rfl]
      rw [Bool.or_eq_true]
      cases i with
      | zero =>
        rw [List.drop_zero] at hp
        exact Or.inl hp
      | succ j =>
        refine Or.inr (ih.mpr ⟨j, ?_, ?_⟩)
        · simp only [List.length_cons] at hi; omega
        · rw [List.drop_succ_cons] at hp; exact hp

/-- Helper: a filterMap with a guarded `some` is a filter followed by a map. -/
theorem filterMap_guard {α β : Type} (p : α → Bool) (f : α → β) :
    ∀ l : List α, l.filterMap (fun x => if p x then some (f x) else none)
      = (l.filter p).map f := by
  intro l
  induction l with
  | nil => rfl
  | cons a t ih =>
    by_cases h : p a = true
    · simp [List.filterMap_cons, List.filter_cons, h, ih]
    · simp [List.filterMap_cons, List.filter_cons, h, ih]

/-- Helper, soundness of the match scan: every reported pair lies at or after
the scan origin, spans exactly the needle length, fits inside the haystack,
and marks a genuine occurrence of the needle. -/
theorem occAux_sound (needle : List Char) :
    ∀ (hay : List Char) (i : Nat), ∀ se ∈ occAux needle hay i,
      i ≤ se.1 ∧ se.2 = se.1 + needle.length ∧
      se.1 - i + needle.length ≤ hay.length ∧
      needle.isPrefixOf (hay.drop (se.1 - i)) = true := by
  intro hay i
  induction hay, i using occAux.induct needle with
  | case1 i hempty =>
    intro se hse
    rw [show occAux needle [] i = [(i, i)] from by simp [occAux, hempty]] at hse
    rw [List.mem_singleton] at hse
    subst hse
    have hn : needle = [] := List.isEmpty_iff.mp hempty
    subst hn
    exact ⟨Nat.le_refl i, rfl, by simp, by simp [List.isPrefixOf]⟩
  | case2 i hne =>
    intro se hse
    rw [show occAux needle [] i = [] from by simp [occAux, hne]] at hse
    simp at hse
  | case3 c rest i hempty ih =>
    intro se hse
    rw [show occAux needle (c :: rest) i = (i, i) :: occAux needle rest (i + 1) from by
      simp [occAux, hempty]] at hse
    have hn : needle = [] := List.isEmpty_iff.mp hempty
    subst hn
    rcases List.mem_cons.mp hse with h | h
    · subst h
      exact ⟨Nat.le_refl i, rfl, by simp, by simp [List.isPrefixOf]⟩
    · obtain ⟨h1, h2, h3, h4⟩ := ih se h
      refine ⟨by omega, h2, ?_, by simp [List.isPrefixOf]⟩
      simp only [List.length_nil, Nat.add_zero, List.length_cons] at h3 ⊢
      omega
  | case4 c rest i hne hpre ih =>
    intro se hse
    rw [show occAux needle (c :: rest) i
        = (i, i + needle.length)
          :: occAux needle ((c :: rest).drop needle.length) (i + needle.length) from by
      simp [occAux, hne, hpre]] at hse
    rcases List.mem_cons.mp hse with h | h
    · subst h
      refine ⟨Nat.le_refl i, rfl, ?_, ?_⟩
      · have := isPrefixOf_imp_le needle (c :: rest) hpre
        simpa using this
      · simpa using hpre
    · obtain ⟨h1, h2, h3, h4⟩ := ih se h
      have hq : se.1 - i = needle.length + (se.1 - (i + needle.length)) := by omega
      refine ⟨by omega, h2, ?_, ?_⟩
      · rw [List.length_drop] at h3
        simp only [List.length_cons] at h3 ⊢
        omega
      · rw [List.drop_drop] at h4
        rw [hq]
        exact h4
  | case5 c rest i hne hnpre ih =>
    intro se hse
    rw [show occAux needle (c :: rest) i = occAux needle rest (i + 1) from by
      simp [occAux, hne, hnpre]] at hse
    obtain ⟨h1, h2, h3, h4⟩ := ih se hse
    have hq : se.1 - i = se.1 - (i + 1) + 1 := by omega
    refine ⟨by omega, h2, ?_, ?_⟩
    · simp only [List.length_cons]
      omega
    · rw [hq, List.drop_succ_cons]
      exact h4

/-- Helper: the reported matches are in scan order and pairwise
non-overlapping (each match starts no earlier than the previous one ends). -/
theorem occAux_chain (needle : List Char) :
    ∀ (hay : List Char) (i : Nat),
    (occAux needle hay i).Chain' (fun a b => a.2 ≤ b.1) := by
  intro hay i
  induction hay, i using occAux.induct needle with
  | case1 i hempty =>
    rw [show occAux needle [] i = [(i, i)] from by simp [occAux, hempty]]
    simp
  | case2 i hne =>
    rw [show occAux needle [] i = [] from by simp [occAux, hne]]
    simp
  | case3 c rest i hempty ih =>
    rw [show occAux needle (c :: rest) i = (i, i) :: occAux needle rest (i + 1) from by
      simp [occAux, hempty]]
    rw [List.chain'_cons']
    refine ⟨?_, ih⟩
    intro b hb
    have hmem := List.mem_of_mem_head? hb
    have h1 := (occAux_sound needle rest (i + 1) b hmem).1
    show i ≤ b.1
    omega
  | case4 c rest i hne hpre ih =>
    rw [show occAux needle (c :: rest) i
        = (i, i + needle.length)
          :: occAux needle ((c :: rest).drop needle.length) (i + needle.length) from by
      simp [occAux, hne, hpre]]
    rw [List.chain'_cons']
    refine ⟨?_, ih⟩
    intro b hb
    have hmem := List.mem_of_mem_head? hb
    have h1 := (occAux_sound needle ((c :: rest).drop needle.length)
      (i + needle.length) b hmem).1
    show i + needle.length ≤ b.1
    omega
  | case5 c rest i hne hnpre ih =>
    rw [show occAux needle (c :: rest) i = occAux needle rest (i + 1) from by
      simp [occAux, hne, hnpre]]
    exact ih

/-- Helper, completeness of the match scan for a non-empty needle: every
occurrence position overlaps some reported match. -/
theorem occAux_complete (needle : List Char) (hne0 : ¬needle = []) :
    ∀ (hay : List Char) (i : Nat), ∀ q, q + needle.length ≤ hay.length →
      needle.isPrefixOf (hay.drop q) = true →
      ∃ se ∈ occAux needle hay i, se.1 ≤ i + q ∧ i + q < se.2 := by
  intro hay i
  induction hay, i using occAux.induct needle with
  | case1 i hempty => exact absurd (List.isEmpty_iff.mp hempty) hne0
  | case2 i hnemp =>
    intro q hlen hp
    simp only [List.length_nil, Nat.le_zero] at hlen
    have : needle.length = 0 := by omega
    exact absurd (List.length_eq_zero.mp this) hne0
  | case3 c rest i hempty ih => exact absurd (List.isEmpty_iff.mp hempty) hne0
  | case4 c rest i hnemp hpre ih =>
    intro q hlen hp
    rw [show occAux needle (c :: rest) i
        = (i, i + needle.length)
          :: occAux needle ((c :: rest).drop needle.length) (i + needle.length) from by
      simp [occAux, hnemp, hpre]]
    have hlenpos : 0 < needle.length := by
      cases needle with
      | nil => exact absurd rfl hne0
      | cons a as => simp
    by_cases hq : q < needle.length
    · refine ⟨(i, i + needle.length), List.mem_cons_self _ _, ?_, ?_⟩
      · show i ≤ i + q; omega
      · show i + q < i + needle.length; omega
    · push_neg at hq
      have hlen2 : q - needle.length + needle.length
          ≤ ((c :: rest).drop needle.length).length := by
        rw [List.length_drop]
        simp only [List.length_cons] at hlen ⊢
        omega
      have hp2 : needle.isPrefixOf
          (((c :: rest).drop needle.length).drop (q - needle.length)) = true := by
        rw [List.drop_drop]
        have hsum : needle.length + (q - needle.length) = q := by omega
        rw [hsum]
        exact hp
      obtain ⟨se, hmem, hle, hlt⟩ := ih (q - needle.length) hlen2 hp2
      refine ⟨se, List.mem_cons_of_mem _ hmem, by omega, by omega⟩
  | case5 c rest i hnemp hnpre ih =>
    intro q hlen hp
    rw [show occAux needle (c :: rest) i = occAux needle rest (i + 1) from by
      simp [occAux, hnemp, hnpre]]
    cases q with
    | zero =>
      rw [List.drop_zero] at hp
      exact absurd hp hnpre
    | succ j =>
      rw [List.drop_succ_cons] at hp
      have hlen2 : j + needle.length ≤ rest.length := by
        simp only [List.length_cons] at hlen
        omega
      obtain ⟨se, hmem, hle, hlt⟩ := ih j hlen2 hp
      exact ⟨se, hmem, by omega, by omega⟩

/-- C7: the search returns one result record per speech whose case-folded
content contains the case-folded keyword as a literal unanchored substring
(and for no other speech); each record carries the speech id, the embedded
speaker record and one context window per non-overlapping match occurrence,
each window spanning the interval from 100 characters before the match start
to 100 characters after the match end, clamped to the content bounds; the
reported occurrences are genuine, ordered, non-overlapping, and (for a
non-empty keyword) maximal: every occurrence overlaps a reported one. -/
theorem claim7_search (keyword : String) (speeches : List SpeechRec) :
    searchSpeeches keyword speeches =
      (speeches.filter (fun sp =>
        containsSub (lowerStr keyword) (lowerStr sp.inhalt))).map
        (mkSearchResult keyword) ∧
    (∀ hay : List Char, containsSub (lowerStr keyword) hay = true ↔
      ∃ i, i ≤ hay.length ∧ (lowerStr keyword).isPrefixOf (hay.drop i) = true) ∧
    (∀ sp : SpeechRec,
      (mkSearchResult keyword sp).matchStrings =
        (occAux (lowerStr keyword) (lowerStr sp.inhalt) 0).map (fun se =>
          "..." ++ String.mk (((lowerStr sp.inhalt).drop (se.1 - 100)).take
            (min (lowerStr sp.inhalt).length (se.2 + 100) - (se.1 - 100))) ++ "...") ∧
      (mkSearchResult keyword sp).match_count
        = (mkSearchResult keyword sp).matchStrings.length ∧
      (mkSearchResult keyword sp).id = sp.id ∧
      (mkSearchResult keyword sp).redner = sp.redner) ∧
    (∀ hay : List Char,
      (∀ se ∈ occAux (lowerStr keyword) hay 0,
        se.2 = se.1 + (lowerStr keyword).length ∧
        se.1 + (lowerStr keyword).length ≤ hay.length ∧
        (lowerStr keyword).isPrefixOf (hay.drop se.1) = true) ∧
      (occAux (lowerStr keyword) hay 0).Chain' (fun a b => a.2 ≤ b.1) ∧
      (∀ q, ¬(lowerStr keyword) = [] →
        q + (lowerStr keyword).length ≤ hay.length →
        (lowerStr keyword).isPrefixOf (hay.drop q) = true →
        ∃ se ∈ occAux (lowerStr keyword) hay 0, se.1 ≤ q ∧ q < se.2)) := by
  refine ⟨?_, ?_, ?_, ?_⟩
  · exact filterMap_guard _ _ speeches
  · exact containsSub_iff (lowerStr keyword)
  · intro sp
    exact ⟨rfl, rfl, rfl, rfl⟩
  · intro hay
    refine ⟨?_, occAux_chain (lowerStr keyword) hay 0, ?_⟩
    · intro se hse
      obtain ⟨h1, h2, h3, h4⟩ := occAux_sound (lowerStr keyword) hay 0 se hse
      rw [Nat.sub_zero] at h3 h4
      exact ⟨h2, h3, h4⟩
    · intro q hne hlen hp
      have h := occAux_complete (lowerStr keyword) hne hay 0 q hlen hp
      simpa using h

/-- Witness for C7 at a concrete input: searching `Klimaschutz` in the example
speech, plus the completeness guarantee instantiated at the occurrence of the
(case-folded) keyword at position 4 of a concrete haystack. -/
theorem claim7_search_witness :
    searchSpeeches "Klimaschutz" [searchSpeechRec] =
      (([searchSpeechRec].filter (fun sp =>
        containsSub (lowerStr "Klimaschutz") (lowerStr sp.inhalt))).map
        (mkSearchResult "Klimaschutz")) ∧
    (∃ se ∈ occAux (lowerStr "Klimaschutz")
        ("der klimaschutz ist wichtig".data) 0, se.1 ≤ 4 ∧ 4 < se.2) := by
  refine ⟨(claim7_search "Klimaschutz" [searchSpeechRec]).1, ?_⟩
  have h := ((claim7_search "Klimaschutz" [searchSpeechRec]).2.2.2
    ("der klimaschutz ist wichtig".data)).2.2
  exact h 4 (by decide) (by decide) (by decide)
